import Mathlib

/-!
Verification of the battery tray-icon program (`src-tauri/src/main.rs` and
`src-tauri/src/battery_icon_generator.rs`) against its specification.

The pure core of the program is embedded shallowly:
* `build_text` mirrors `BatteryIconGenerator::build_text`;
* `measure_text`, `compute_position`, `fsLoop`/`find_scale_for_width` and
  `generate_icon` mirror the corresponding generator methods, with the font
  metrics (per-character horizontal advance and ascent, supplied by the
  embedded `ComicMono.ttf` via `ab_glyph`, both external to the sources)
  taken as explicit functional parameters, and `f32` arithmetic modelled
  over `ℚ` (all values reached by the bisection are small dyadic rationals,
  exactly representable in `f32`);
* `sampler_iter`/`sampler_run` mirror the loop body of
  `spawn_battery_monitor`, with a `blocking_send` failure (closed receiver)
  modelled as the `panic` outcome produced by `.expect(...)`, and the `f32`
  multiplication in the percentage derivation modelled by `fl32`,
  round-to-nearest-even at 24-bit precision;
* `tray_charging` mirrors the `state == State::Charging` derivation in
  `spawn_tray_updater`.
-/

/-! ### Decimal representation facts

`format!("{percentage}")` on a `u32` produces the decimal digit string,
modelled by `Nat.repr`.  The lemmas below establish that every character of
`Nat.repr n` is a decimal digit, hence no decimal string (with or without a
trailing `'*'`) coincides with the smiley `"^_^"`. -/

lemma digitChar_isDigit (n : ℕ) (h : n < 10) : (Nat.digitChar n).isDigit = true := by
  interval_cases n <;> decide

lemma toDigitsCore_isDigit (fuel : ℕ) :
    ∀ (n : ℕ) (ds : List Char), (∀ c ∈ ds, c.isDigit = true) →
      ∀ c ∈ Nat.toDigitsCore 10 fuel n ds, c.isDigit = true := by
  induction fuel with
  | zero => intro n ds hds c hc; exact hds c hc
  | succ fuel ih =>
    intro n ds hds c hc
    have hd : ∀ c ∈ Nat.digitChar (n % 10) :: ds, c.isDigit = true := by
      intro c hc
      rcases List.mem_cons.mp hc with h | h
      · subst h; exact digitChar_isDigit _ (Nat.mod_lt _ (by norm_num))
      · exact hds c h
    rw [Nat.toDigitsCore] at hc
    split at hc
    · exact hd c hc
    · exact ih (n / 10) _ hd c hc

lemma repr_isDigit (n : ℕ) : ∀ c ∈ (Nat.repr n).data, c.isDigit = true := by
  intro c hc
  have hdata : (Nat.repr n).data = Nat.toDigitsCore 10 (n + 1) n [] := rfl
  rw [hdata] at hc
  exact toDigitsCore_isDigit (n + 1) n [] (by simp) c hc

lemma repr_ne_smiley (n : ℕ) : Nat.repr n ≠ "^_^" := by
  intro h
  have h2 := repr_isDigit n
  rw [h] at h2
  have h3 := h2 '^' (by decide)
  exact absurd h3 (by decide)

lemma repr_star_ne_smiley (n : ℕ) : Nat.repr n ++ "*" ≠ "^_^" := by
  intro h
  have hmem : '^' ∈ (Nat.repr n ++ "*").data := by rw [h]; decide
  rw [String.data_append] at hmem
  rcases List.mem_append.mp hmem with h1 | h2
  · exact absurd (repr_isDigit n '^' h1) (by decide)
  · exact absurd h2 (by decide)

/-! ### Text formatter (`BatteryIconGenerator::build_text`) -/

/-- Shallow embedding of `build_text`: matches on the pair
`(charging, percentage > 97)` exactly as the Rust `match` does. -/
def build_text (percentage : ℕ) (charging : Bool) : String :=
  match charging, decide (97 < percentage) with
  | true, true => "^_^"
  | true, false => Nat.repr percentage ++ "*"
  | false, _ => Nat.repr percentage

lemma build_text_charging_high {p : ℕ} (h : 97 < p) :
    build_text p true = "^_^" := by
  simp [build_text, h]

lemma build_text_charging_low {p : ℕ} (h : p ≤ 97) :
    build_text p true = Nat.repr p ++ "*" := by
  simp [build_text, Nat.not_lt.mpr h]

lemma build_text_not_charging (p : ℕ) :
    build_text p false = Nat.repr p := by
  simp [build_text]

/-- C1: on `[0,100] × Bool` the text formatter is total and deterministic
(it is a Lean function), exactly one of the three rules applies — the
three guard conditions are exhaustive and mutually exclusive — and each
rule produces the stated string; the `"^_^"` string of the first rule is
distinct from every decimal digit string. -/
theorem build_text_spec (p : ℕ) (c : Bool) (hp : p ≤ 100) :
    (c = true → 97 < p → build_text p c = "^_^") ∧
    (c = true → p ≤ 97 → build_text p c = Nat.repr p ++ "*") ∧
    (c = false → build_text p c = Nat.repr p) ∧
    (∀ n : ℕ, Nat.repr n ≠ "^_^") ∧
    ((c = true ∧ 97 < p) ∨ (c = true ∧ p ≤ 97) ∨ c = false) ∧
    ¬((c = true ∧ 97 < p) ∧ (c = true ∧ p ≤ 97)) ∧
    ¬((c = true ∧ 97 < p) ∧ c = false) ∧
    ¬((c = true ∧ p ≤ 97) ∧ c = false) := by
  refine ⟨fun hc h => by subst hc; exact build_text_charging_high h,
         fun hc h => by subst hc; exact build_text_charging_low h,
         fun hc => by subst hc; exact build_text_not_charging p,
         repr_ne_smiley, ?_, ?_, ?_, ?_⟩
  · cases c
    · exact Or.inr (Or.inr rfl)
    · rcases Nat.lt_or_ge 97 p with h | h
      · exact Or.inl ⟨rfl, h⟩
      · exact Or.inr (Or.inl ⟨rfl, h⟩)
  · rintro ⟨⟨-, h1⟩, ⟨-, h2⟩⟩; omega
  · rintro ⟨⟨hc, -⟩, hc'⟩; rw [hc] at hc'; cases hc'
  · rintro ⟨⟨hc, -⟩, hc'⟩; rw [hc] at hc'; cases hc'

/-! ### Glyph fitter (`measure_text`, `compute_position`, `find_scale_for_width`)

The font metrics are external to the sources (the embedded `ComicMono.ttf`
queried through `ab_glyph`), so they enter the embedding as parameters:
`h_advance c s` is the horizontal advance of character `c` at scale `s`
and `ascent s` is the font ascent at scale `s`. -/

/-- Truncation toward zero: the semantics of Rust's `as i32` cast applied
to an in-range `f32` value. -/
def truncQ (q : ℚ) : ℤ := if 0 ≤ q then ⌊q⌋ else ⌈q⌉

/-- Shallow embedding of `measure_text`: the width is the sum of the
per-character horizontal advances at the given scale, the height is the
font ascent at that scale. -/
def measure_text (h_advance : Char → ℚ → ℚ) (ascent : ℚ → ℚ)
    (text : List Char) (scale : ℚ) : ℚ × ℚ :=
  ((text.map fun c => h_advance c scale).sum, ascent scale)

/-- Shallow embedding of `compute_position` (`SIZE` = 64): each coordinate
is `(64 - extent) / 2` cast to `i32`, i.e. truncated toward zero. -/
def compute_position (width height : ℚ) : ℤ × ℤ :=
  (truncQ ((64 - width) / 2), truncQ ((64 - height) / 2))

lemma ceil_toNat_half_lt {x : ℚ} (h : 1 < x) : (⌈x / 2⌉).toNat < (⌈x⌉).toNat := by
  have h2 : (1 : ℤ) < ⌈x⌉ := Int.lt_ceil.mpr (by exact_mod_cast h)
  have hle : x ≤ (⌈x⌉ : ℚ) := Int.le_ceil x
  have hc : (2 : ℚ) ≤ (⌈x⌉ : ℚ) := by exact_mod_cast h2
  have h3 : ⌈x / 2⌉ ≤ ⌈x⌉ - 1 := by
    apply Int.ceil_le.mpr
    push_cast
    linarith
  omega

/-- Shallow embedding of the `while` loop of `find_scale_for_width`
(binary search over scale, bracket `[1, 200]`, tolerance `0.1`), with the
width-measuring function abstracted; the third component counts the loop
iterations performed.  All scale values reached are small dyadic
rationals, exactly representable in `f32`, so the `ℚ` model is exact. -/
def fsLoop (width : ℚ → ℚ) (low high : ℚ) : ℚ × ℚ × ℕ :=
  if h : 1 / 10 < high - low then
    let mid := (low + high) / 2
    if width mid < 64 then
      let r := fsLoop width mid high
      (r.1, r.2.1, r.2.2 + 1)
    else
      let r := fsLoop width low mid
      (r.1, r.2.1, r.2.2 + 1)
  else (low, high, 0)
termination_by (⌈(high - low) * 10⌉).toNat
decreasing_by
  · have heq : (high - (low + high) / 2) * 10 = (high - low) * 10 / 2 := by ring
    rw [heq]
    exact ceil_toNat_half_lt (by linarith)
  · have heq : ((low + high) / 2 - low) * 10 = (high - low) * 10 / 2 := by ring
    rw [heq]
    exact ceil_toNat_half_lt (by linarith)

lemma fsLoop_done {width : ℚ → ℚ} {low high : ℚ} (h : ¬ 1 / 10 < high - low) :
    fsLoop width low high = (low, high, 0) := by
  rw [fsLoop, dif_neg h]

lemma fsLoop_of_lt {width : ℚ → ℚ} {low high : ℚ} (h : 1 / 10 < high - low)
    (hw : width ((low + high) / 2) < 64) :
    fsLoop width low high =
      ((fsLoop width ((low + high) / 2) high).1,
       (fsLoop width ((low + high) / 2) high).2.1,
       (fsLoop width ((low + high) / 2) high).2.2 + 1) := by
  rw [fsLoop, dif_pos h]
  simp [hw]

lemma fsLoop_of_ge {width : ℚ → ℚ} {low high : ℚ} (h : 1 / 10 < high - low)
    (hw : ¬ width ((low + high) / 2) < 64) :
    fsLoop width low high =
      ((fsLoop width low ((low + high) / 2)).1,
       (fsLoop width low ((low + high) / 2)).2.1,
       (fsLoop width low ((low + high) / 2)).2.2 + 1) := by
  rw [fsLoop, dif_pos h]
  simp [hw]

/-- Shallow embedding of `find_scale_for_width`: run the bisection from
`[1, 200]` and return the midpoint of the final bracket. -/
def find_scale_for_width (h_advance : Char → ℚ → ℚ) (ascent : ℚ → ℚ)
    (text : List Char) : ℚ :=
  let r := fsLoop (fun mid => (measure_text h_advance ascent text mid).1) 1 200
  (r.1 + r.2.1) / 2

/-- Bisection invariant: if the width at `low` is under 64 and the width at
`high` is not, the final bracket keeps both properties, is ordered, and has
length at most the tolerance `1/10`. -/
lemma fsLoop_inv (width : ℚ → ℚ) (low high : ℚ) :
    width low < 64 → ¬ width high < 64 → low ≤ high →
      width (fsLoop width low high).1 < 64 ∧
      ¬ width (fsLoop width low high).2.1 < 64 ∧
      (fsLoop width low high).2.1 - (fsLoop width low high).1 ≤ 1 / 10 ∧
      (fsLoop width low high).1 ≤ (fsLoop width low high).2.1 := by
  induction low, high using fsLoop.induct width with
  | case1 low high h mid hw ih =>
    intro hl hh hle
    rw [fsLoop_of_lt h hw]
    have hmid : mid = (low + high) / 2 := rfl
    exact ih hw hh (by rw [hmid]; linarith)
  | case2 low high h mid hw ih =>
    intro hl hh hle
    rw [fsLoop_of_ge h hw]
    have hmid : mid = (low + high) / 2 := rfl
    exact ih hl hw (by rw [hmid]; linarith)
  | case3 low high h =>
    intro hl hh hle
    rw [fsLoop_done h]
    exact ⟨hl, hh, by linarith, hle⟩

/-- The iteration count of the bisection is logarithmic in the initial
bracket length: if `high - low ≤ (1/10) · 2 ^ n` the loop runs at most `n`
times, whatever the width function does. -/
lemma fsLoop_count_le (width : ℚ → ℚ) :
    ∀ (n : ℕ) (low high : ℚ), high - low ≤ 1 / 10 * 2 ^ n →
      (fsLoop width low high).2.2 ≤ n := by
  intro n
  induction n with
  | zero =>
    intro low high hle
    rw [fsLoop_done (by rw [not_lt]; simpa using hle)]
  | succ n ih =>
    intro low high hle
    by_cases h : 1 / 10 < high - low
    · have hpow : (2 : ℚ) ^ (n + 1) = 2 * 2 ^ n := by ring
      by_cases hw : width ((low + high) / 2) < 64
      · rw [fsLoop_of_lt h hw]
        have hnext := ih ((low + high) / 2) high (by rw [hpow] at hle; linarith)
        simpa using Nat.succ_le_succ hnext
      · rw [fsLoop_of_ge h hw]
        have hnext := ih low ((low + high) / 2) (by rw [hpow] at hle; linarith)
        simpa using Nat.succ_le_succ hnext
    · rw [fsLoop_done h]
      exact Nat.zero_le _

/-- C3: for every width function (hence every text and font), the binary
search of `find_scale_for_width` starting from `low = 1`, `high = 200`
with tolerance `0.1` terminates (it is a total function) after at most
`⌈log₂((200-1)/0.1)⌉ = 11` iterations. -/
theorem find_scale_iteration_bound (h_advance : Char → ℚ → ℚ) (ascent : ℚ → ℚ)
    (text : List Char) :
    (fsLoop (fun mid => (measure_text h_advance ascent text mid).1) 1 200).2.2 ≤ 11 := by
  apply fsLoop_count_le
  norm_num

/-- Concrete font model used as a test input: every character advances by
exactly the scale, and the ascent is zero.  This is monotone in scale, so
it satisfies the spec's assumption on the real font. -/
def unitAdvance : Char → ℚ → ℚ := fun _ s => s

/-- Concrete ascent model used as a test input. -/
def zeroAscent : ℚ → ℚ := fun _ => 0

lemma unit_width (s : ℚ) : (measure_text unitAdvance zeroAscent ['x'] s).1 = s := by
  simp [measure_text, unitAdvance]

/-- C2 counterexample: with the monotone font `unitAdvance` (width equals
scale) and the one-character text `['x']`, the bracket endpoints satisfy
the claim's hypotheses (`width 1 < 64 ≤ width 200`), yet the scale the
code returns is `262199/4096 = 64.013427734375`, whose rendered width is
NOT strictly less than the canvas side 64: the code returns the midpoint
of the final bracket, which can land on the far side of the threshold. -/
theorem find_scale_width_overshoot :
    Monotone (fun s => (measure_text unitAdvance zeroAscent ['x'] s).1) ∧
    (measure_text unitAdvance zeroAscent ['x'] 1).1 < 64 ∧
    ¬ (measure_text unitAdvance zeroAscent ['x'] 200).1 < 64 ∧
    find_scale_for_width unitAdvance zeroAscent ['x'] = 262199 / 4096 ∧
    ¬ (measure_text unitAdvance zeroAscent ['x']
        (find_scale_for_width unitAdvance zeroAscent ['x'])).1 < 64 := by
  have hfun : (fun mid => (measure_text unitAdvance zeroAscent ['x'] mid).1) =
      (fun s : ℚ => s) := funext fun s => unit_width s
  have t11 : fsLoop (fun s : ℚ => s) (16375/256) (131199/2048) =
      (16375/256, 131199/2048, 0) := fsLoop_done (by norm_num)
  have t10 : fsLoop (fun s : ℚ => s) (16375/256) (65699/1024) =
      (16375/256, 131199/2048, 1) := by
    rw [fsLoop_of_ge (by norm_num) (by norm_num)]
    norm_num [t11]
  have t9 : fsLoop (fun s : ℚ => s) (16375/256) (32949/512) =
      (16375/256, 131199/2048, 2) := by
    rw [fsLoop_of_ge (by norm_num) (by norm_num)]
    norm_num [t10]
  have t8 : fsLoop (fun s : ℚ => s) (16375/256) (8287/128) =
      (16375/256, 131199/2048, 3) := by
    rw [fsLoop_of_ge (by norm_num) (by norm_num)]
    norm_num [t9]
  have t7 : fsLoop (fun s : ℚ => s) (1011/16) (8287/128) =
      (16375/256, 131199/2048, 4) := by
    rw [fsLoop_of_lt (by norm_num) (by norm_num)]
    norm_num [t8]
  have t6 : fsLoop (fun s : ℚ => s) (1011/16) (4243/64) =
      (16375/256, 131199/2048, 5) := by
    rw [fsLoop_of_ge (by norm_num) (by norm_num)]
    norm_num [t7]
  have t5 : fsLoop (fun s : ℚ => s) (1011/16) (2221/32) =
      (16375/256, 131199/2048, 6) := by
    rw [fsLoop_of_ge (by norm_num) (by norm_num)]
    norm_num [t6]
  have t4 : fsLoop (fun s : ℚ => s) (1011/16) (605/8) =
      (16375/256, 131199/2048, 7) := by
    rw [fsLoop_of_ge (by norm_num) (by norm_num)]
    norm_num [t5]
  have t3 : fsLoop (fun s : ℚ => s) (203/4) (605/8) =
      (16375/256, 131199/2048, 8) := by
    rw [fsLoop_of_lt (by norm_num) (by norm_num)]
    norm_num [t4]
  have t2 : fsLoop (fun s : ℚ => s) (203/4) (201/2) =
      (16375/256, 131199/2048, 9) := by
    rw [fsLoop_of_ge (by norm_num) (by norm_num)]
    norm_num [t3]
  have t1 : fsLoop (fun s : ℚ => s) 1 (201/2) =
      (16375/256, 131199/2048, 10) := by
    rw [fsLoop_of_lt (by norm_num) (by norm_num)]
    norm_num [t2]
  have t0 : fsLoop (fun s : ℚ => s) 1 200 =
      (16375/256, 131199/2048, 11) := by
    rw [fsLoop_of_ge (by norm_num) (by norm_num)]
    norm_num [t1]
  have hfs : find_scale_for_width unitAdvance zeroAscent ['x'] = 262199 / 4096 := by
    simp only [find_scale_for_width, hfun, t0]
    norm_num
  refine ⟨fun a b hab => by simpa [measure_text, unitAdvance] using hab,
         by rw [unit_width]; norm_num,
         by rw [unit_width]; norm_num,
         hfs,
         by rw [hfs, unit_width]; norm_num⟩

/-- C2 amended: for every font-metric model and text whose width at scale 1
is under 64 while the width at scale 200 is not, the scale `s` returned by
`find_scale_for_width` is the midpoint of a bracket `[s₀, s₁]` of length at
most the tolerance `0.1` with `width s₀ < 64 ≤ width s₁`; so some scale
within the tolerance-neighborhood above `s` has width `≥ 64`, and some
scale within the tolerance-neighborhood below `s` (not necessarily `s`
itself) has width `< 64`. -/
theorem find_scale_bracket (h_advance : Char → ℚ → ℚ) (ascent : ℚ → ℚ)
    (text : List Char)
    (h1 : (measure_text h_advance ascent text 1).1 < 64)
    (h2 : ¬ (measure_text h_advance ascent text 200).1 < 64) :
    ∃ s0 s1 : ℚ, s0 ≤ find_scale_for_width h_advance ascent text ∧
      find_scale_for_width h_advance ascent text ≤ s1 ∧
      s1 - s0 ≤ 1 / 10 ∧
      (measure_text h_advance ascent text s0).1 < 64 ∧
      ¬ (measure_text h_advance ascent text s1).1 < 64 := by
  obtain ⟨i1, i2, i3, i4⟩ :=
    fsLoop_inv (fun mid => (measure_text h_advance ascent text mid).1) 1 200
      h1 h2 (by norm_num)
  refine ⟨(fsLoop (fun mid => (measure_text h_advance ascent text mid).1) 1 200).1,
         (fsLoop (fun mid => (measure_text h_advance ascent text mid).1) 1 200).2.1,
         ?_, ?_, i3, i1, i2⟩
  · simp only [find_scale_for_width]
    linarith
  · simp only [find_scale_for_width]
    linarith

/-- Witness for the amended C2 at the concrete font `unitAdvance` and
text `['x']`. -/
theorem find_scale_bracket_witness :
    ∃ s0 s1 : ℚ, s0 ≤ find_scale_for_width unitAdvance zeroAscent ['x'] ∧
      find_scale_for_width unitAdvance zeroAscent ['x'] ≤ s1 ∧
      s1 - s0 ≤ 1 / 10 ∧
      (measure_text unitAdvance zeroAscent ['x'] s0).1 < 64 ∧
      ¬ (measure_text unitAdvance zeroAscent ['x'] s1).1 < 64 :=
  find_scale_bracket unitAdvance zeroAscent ['x']
    (by rw [unit_width]; norm_num) (by rw [unit_width]; norm_num)

/-! ### Icon generation pipeline (`generate_icon`)

Rasterization and ICO encoding (`render_icon`) act on an opaque image
codec, so the render step enters the embedding as a fallible functional
parameter receiving exactly the arguments the source passes it. -/

/-- Shallow embedding of `generate_icon`: the `ensure!` range check runs
first; only when it passes are the text built, the scale fitted, the text
measured, the position computed and the render step invoked (whose error,
as in the source, is wrapped with the `"Failed to render icon"` context). -/
def generate_icon {α : Type} (h_advance : Char → ℚ → ℚ) (ascent : ℚ → ℚ)
    (render_icon : ℤ → ℤ → ℚ → List Char → Except String α)
    (percentage : ℕ) (charging : Bool) : Except String α :=
  if percentage ≤ 100 then
    let text := (build_text percentage charging).data
    let scale := find_scale_for_width h_advance ascent text
    let wh := measure_text h_advance ascent text scale
    let xy := compute_position wh.1 wh.2
    (render_icon xy.1 xy.2 scale text).mapError
      fun e => "Failed to render icon: " ++ e
  else Except.error "Battery percentage must be between 0 and 100"

/-- C4: a percentage above 100 is rejected by `generate_icon` with the
validation error, and the result does not depend on the font metrics or
the render step (no rendering work is attempted); a percentage in
`[0,100]` passes validation and the pipeline reaches the render step. -/
theorem generate_icon_validation :
    (∀ (α : Type) (adv adv' : Char → ℚ → ℚ) (asc asc' : ℚ → ℚ)
       (render render' : ℤ → ℤ → ℚ → List Char → Except String α)
       (p : ℕ) (c : Bool), 100 < p →
        generate_icon adv asc render p c =
          Except.error "Battery percentage must be between 0 and 100" ∧
        generate_icon adv asc render p c = generate_icon adv' asc' render' p c) ∧
    (∀ (adv : Char → ℚ → ℚ) (asc : ℚ → ℚ) (p : ℕ) (c : Bool), p ≤ 100 →
        generate_icon adv asc (fun _ _ _ _ => Except.ok ()) p c = Except.ok ()) := by
  constructor
  · intro α adv adv' asc asc' render render' p c hp
    have hnot : ¬ p ≤ 100 := by omega
    constructor
    · simp [generate_icon, hnot]
    · simp [generate_icon, hnot]
  · intro adv asc p c hp
    simp [generate_icon, hp, Except.mapError]

/-- Witness for C4 at `p = 101` (rejected) and `p = 100` (accepted). -/
theorem generate_icon_validation_witness :
    (generate_icon unitAdvance zeroAscent
        (fun _ _ _ _ => (Except.ok () : Except String Unit)) 101 false =
      Except.error "Battery percentage must be between 0 and 100") ∧
    generate_icon unitAdvance zeroAscent
        (fun _ _ _ _ => (Except.ok () : Except String Unit)) 100 true =
      Except.ok () :=
  ⟨(generate_icon_validation.1 Unit unitAdvance unitAdvance zeroAscent zeroAscent
      (fun _ _ _ _ => Except.ok ()) (fun _ _ _ _ => Except.ok ()) 101 false
      (by norm_num)).1,
   generate_icon_validation.2 unitAdvance zeroAscent 100 true (by norm_num)⟩

/-- C9: for every font-metric model, text and scale, the drawing origin
computed by `compute_position` from `measure_text` is
`((64 - width) / 2, (64 - ascent) / 2)` truncated toward zero, where
`width` is the sum of the per-character horizontal advances at that scale
and `ascent` is the font's ascent at that scale; and `truncQ` is genuine
truncation toward zero (its magnitude never exceeds the magnitude of its
argument and falls short of it by less than one). -/
theorem compute_position_centering :
    (∀ (h_advance : Char → ℚ → ℚ) (ascent : ℚ → ℚ) (text : List Char) (scale : ℚ),
      compute_position (measure_text h_advance ascent text scale).1
          (measure_text h_advance ascent text scale).2 =
        (truncQ ((64 - (text.map fun c => h_advance c scale).sum) / 2),
         truncQ ((64 - ascent scale) / 2))) ∧
    (∀ q : ℚ, |(truncQ q : ℚ)| ≤ |q| ∧ |q| < |(truncQ q : ℚ)| + 1) := by
  constructor
  · intro h_advance ascent text scale
    rfl
  · intro q
    rcases le_or_lt 0 q with hq | hq
    · have ht : truncQ q = ⌊q⌋ := if_pos hq
      have h0 : (0 : ℤ) ≤ ⌊q⌋ := Int.floor_nonneg.mpr hq
      have h0' : (0 : ℚ) ≤ ((⌊q⌋ : ℤ) : ℚ) := by exact_mod_cast h0
      have hf1 : ((⌊q⌋ : ℤ) : ℚ) ≤ q := Int.floor_le q
      have hf2 : q < ((⌊q⌋ : ℤ) : ℚ) + 1 := Int.lt_floor_add_one q
      rw [ht, abs_of_nonneg hq, abs_of_nonneg h0']
      exact ⟨hf1, hf2⟩
    · have ht : truncQ q = ⌈q⌉ := if_neg (not_le.mpr hq)
      have h0 : ⌈q⌉ ≤ 0 := Int.ceil_le.mpr (by push_cast; exact hq.le)
      have h0' : ((⌈q⌉ : ℤ) : ℚ) ≤ 0 := by exact_mod_cast h0
      have hc1 : q ≤ ((⌈q⌉ : ℤ) : ℚ) := Int.le_ceil q
      have hc2 : ((⌈q⌉ : ℤ) : ℚ) < q + 1 := Int.ceil_lt_add_one q
      rw [ht, abs_of_neg hq, abs_of_nonpos h0']
      constructor <;> linarith

/-! ### Battery sampler (`spawn_battery_monitor`)

The `battery` crate is external: a query either fails or yields a list of
per-device results, of which `.flatten().next()` keeps the first `Ok`
device.  Modelled from the spec: the charging-state enum has the four
variants `{Charging, Discharging, Full, Unknown}` and each device reports
a state-of-charge fraction.  A failed query is `none`; a failed device
entry inside a successful query is `none`.  `tx.blocking_send(..).expect(..)`
panics when the receiver is closed; the panic outcome is modelled
explicitly. -/

/-- Modelled from the spec: the charging-state enum of the external
battery data source (`battery::State` in the source, which is not under
the repository's own sources). -/
inductive BState where
  | Charging
  | Discharging
  | Full
  | Unknown
deriving DecidableEq

/-- Modelled from the spec: one battery device of the external data
source, exposing a state-of-charge fraction and a charging state. -/
structure Battery where
  state_of_charge : ℚ
  state : BState

/-- The first successfully-read device: `batteries.flatten().next()`. -/
def flatten_next (batteries : List (Option Battery)) : Option Battery :=
  (batteries.filterMap id).head?

/-- Round to the nearest integer with ties to even: the IEEE-754
rounding of a scaled significand. -/
def rne (x : ℚ) : ℤ :=
  if x - ⌊x⌋ < 1/2 then ⌊x⌋
  else if 1/2 < x - ⌊x⌋ then ⌊x⌋ + 1
  else if ⌊x⌋ % 2 = 0 then ⌊x⌋ else ⌊x⌋ + 1

lemma rne_bounds (x : ℚ) : x - 1/2 ≤ (rne x : ℚ) ∧ (rne x : ℚ) ≤ x + 1/2 := by
  have hf1 : ((⌊x⌋ : ℤ) : ℚ) ≤ x := Int.floor_le x
  have hf2 : x < ((⌊x⌋ : ℤ) : ℚ) + 1 := Int.lt_floor_add_one x
  unfold rne
  split_ifs with h1 h2 h3 <;> constructor <;> push_cast <;> linarith

lemma floor_le_rne (x : ℚ) : ⌊x⌋ ≤ rne x := by
  unfold rne
  split_ifs <;> omega

/-- The binade exponent of a positive rational: the unique `e` with
`2 ^ e ≤ q < 2 ^ (e + 1)`, computed from the bit lengths of numerator and
denominator. -/
def exp2 (q : ℚ) : ℤ :=
  if q < 2 ^ ((Nat.log2 q.num.toNat : ℤ) - (Nat.log2 q.den : ℤ))
  then (Nat.log2 q.num.toNat : ℤ) - Nat.log2 q.den - 1
  else (Nat.log2 q.num.toNat : ℤ) - Nat.log2 q.den

lemma exp2_spec {q : ℚ} (hq : 0 < q) :
    (2:ℚ) ^ exp2 q ≤ q ∧ q < 2 ^ (exp2 q + 1) := by
  have hnum : 0 < q.num := Rat.num_pos.mpr hq
  have ha0 : q.num.toNat ≠ 0 := by omega
  have hb0 : q.den ≠ 0 := q.den_nz
  have ha1 : (2:ℕ) ^ Nat.log2 q.num.toNat ≤ q.num.toNat := Nat.log2_self_le ha0
  have ha2 : q.num.toNat < 2 ^ (Nat.log2 q.num.toNat + 1) := Nat.lt_log2_self
  have hb1 : (2:ℕ) ^ Nat.log2 q.den ≤ q.den := Nat.log2_self_le hb0
  have hb2 : q.den < 2 ^ (Nat.log2 q.den + 1) := Nat.lt_log2_self
  set la := Nat.log2 q.num.toNat with hla
  set lb := Nat.log2 q.den with hlb
  have hqeq : q = (q.num.toNat : ℚ) / (q.den : ℚ) := by
    have h1 : ((q.num.toNat : ℤ) : ℚ) = (q.num : ℚ) := by
      exact_mod_cast congrArg (fun z : ℤ => (z : ℚ)) (Int.toNat_of_nonneg hnum.le)
    rw [show ((q.num.toNat : ℕ) : ℚ) = ((q.num.toNat : ℤ) : ℚ) by push_cast; ring, h1]
    exact (Rat.num_div_den q).symm
  have hbpos : (0:ℚ) < (q.den : ℚ) := by positivity
  have hA1 : (2:ℚ) ^ (la:ℕ) ≤ (q.num.toNat : ℚ) := by exact_mod_cast ha1
  have hA2 : (q.num.toNat : ℚ) < 2 ^ (la + 1 : ℕ) := by exact_mod_cast ha2
  have hB1 : (2:ℚ) ^ (lb:ℕ) ≤ (q.den : ℚ) := by exact_mod_cast hb1
  have hB2 : (q.den : ℚ) < 2 ^ (lb + 1 : ℕ) := by exact_mod_cast hb2
  have key1 : (2:ℚ) ^ ((la:ℤ) - lb - 1) = 2 ^ (la:ℕ) / 2 ^ (lb + 1 : ℕ) := by
    rw [eq_div_iff (by positivity), ← zpow_natCast (2:ℚ) la, ← zpow_natCast (2:ℚ) (lb+1),
      ← zpow_add₀ (two_ne_zero)]
    congr 1
    push_cast
    ring
  have key2 : (2:ℚ) ^ ((la:ℤ) - lb + 1) = 2 ^ (la + 1 : ℕ) / 2 ^ (lb:ℕ) := by
    rw [eq_div_iff (by positivity), ← zpow_natCast (2:ℚ) (la+1), ← zpow_natCast (2:ℚ) lb,
      ← zpow_add₀ (two_ne_zero)]
    congr 1
    push_cast
    ring
  have hlow : (2:ℚ) ^ ((la:ℤ) - lb - 1) ≤ q := by
    rw [key1, hqeq, div_le_div_iff₀ (by positivity) hbpos]
    exact mul_le_mul hA1 hB2.le (by positivity) (by positivity)
  have hhigh : q < (2:ℚ) ^ ((la:ℤ) - lb + 1) := by
    rw [key2, hqeq, div_lt_div_iff₀ hbpos (by positivity)]
    calc (q.num.toNat : ℚ) * 2 ^ (lb:ℕ) < 2 ^ (la+1:ℕ) * 2 ^ (lb:ℕ) := by
          exact mul_lt_mul_of_pos_right hA2 (by positivity)
      _ ≤ 2 ^ (la+1:ℕ) * (q.den : ℚ) := by
          exact mul_le_mul_of_nonneg_left hB1 (by positivity)
  rw [exp2]
  split_ifs with h
  · refine ⟨hlow, ?_⟩
    have heq : (la:ℤ) - lb - 1 + 1 = (la:ℤ) - lb := by ring
    rw [heq]
    exact h
  · exact ⟨not_lt.mp h, hhigh⟩

lemma exp2_eq {q : ℚ} {e : ℤ} (hq : 0 < q) (h1 : (2:ℚ) ^ e ≤ q) (h2 : q < 2 ^ (e + 1)) :
    exp2 q = e := by
  obtain ⟨g1, g2⟩ := exp2_spec hq
  by_contra hne
  rcases lt_or_gt_of_ne hne with hlt | hgt
  · have : (2:ℚ) ^ (exp2 q + 1) ≤ 2 ^ e := zpow_le_zpow_right₀ one_le_two (by omega)
    linarith
  · have : (2:ℚ) ^ (e + 1) ≤ 2 ^ (exp2 q) := zpow_le_zpow_right₀ one_le_two (by omega)
    linarith

/-- Round-to-nearest-even at `f32` precision (24 significand bits): the
value an IEEE-754 single-precision multiplication delivers for an exact
positive product in the normal range.  Nonpositive inputs (unreachable
for the sampler, whose products lie in `[0, 100]`) map to `0`; subnormal
products (below `2⁻¹²⁶`) are rounded here at normal-range precision,
which is finer than the hardware's — the error bounds proved below are
valid a fortiori for the hardware values. -/
def fl32 (q : ℚ) : ℚ :=
  if q ≤ 0 then 0
  else (rne (q / 2 ^ (exp2 q - 23)) : ℚ) * 2 ^ (exp2 q - 23)

lemma fl32_err {q : ℚ} (hq : 0 < q) : |fl32 q - q| ≤ 2 ^ (exp2 q - 24) := by
  have hu : (0:ℚ) < 2 ^ (exp2 q - 23) := by positivity
  have hhalf : (2:ℚ) ^ (exp2 q - 24) = 2 ^ (exp2 q - 23) / 2 := by
    rw [eq_div_iff (two_ne_zero), ← zpow_add_one₀ (two_ne_zero : (2:ℚ) ≠ 0)]
    congr 1
    ring
  rw [fl32, if_neg (not_le.mpr hq)]
  obtain ⟨hl, hr⟩ := rne_bounds (q / 2 ^ (exp2 q - 23))
  have h1 := mul_le_mul_of_nonneg_right hl hu.le
  have h2 := mul_le_mul_of_nonneg_right hr hu.le
  have h3 : q / 2 ^ (exp2 q - 23) * 2 ^ (exp2 q - 23) = q := div_mul_cancel₀ q hu.ne'
  rw [abs_le]
  constructor <;> nlinarith

lemma fl32_nonneg {q : ℚ} (hq : 0 ≤ q) : 0 ≤ fl32 q := by
  rcases eq_or_lt_of_le hq with h | h
  · rw [← h]
    simp [fl32]
  · rw [fl32, if_neg (not_le.mpr h)]
    have hu : (0:ℚ) < 2 ^ (exp2 q - 23) := by positivity
    have h0 : (0:ℤ) ≤ ⌊q / 2 ^ (exp2 q - 23)⌋ := Int.floor_nonneg.mpr (by positivity)
    have h1 : (0:ℤ) ≤ rne (q / 2 ^ (exp2 q - 23)) := le_trans h0 (floor_le_rne _)
    have h2 : (0:ℚ) ≤ (rne (q / 2 ^ (exp2 q - 23)) : ℚ) := by exact_mod_cast h1
    positivity

/-- The percentage derivation
`(battery.state_of_charge().value * 100.0).round() as u32`: the `f32`
product rounds the exact `soc · 100` to 24-bit precision (`fl32`), then
`f32::round` — round half away from zero, which on these nonnegative
values coincides with Mathlib's round-half-up — and the `u32` cast. -/
def sampler_percentage (soc : ℚ) : ℕ := (round (fl32 (soc * 100))).toNat

/-- Outcome of one iteration of the sampler loop: either continue with an
updated `last_battery_info` and an optional emitted sample, or die in the
`.expect` panic of a failed `blocking_send`. -/
inductive IterResult where
  | cont (last : Option (ℕ × BState)) (emitted : Option (ℕ × BState))
  | panicked (msg : String)
deriving DecidableEq

/-- Shallow embedding of the loop body of `spawn_battery_monitor`:
on a failed query or an empty device list do nothing; otherwise derive
`(percentage, state)` from the first device, and send it iff it differs
from `last_battery_info`; a send with a closed receiver panics with the
source's `.expect` message. -/
def sampler_iter (receiver_closed : Bool)
    (query : Option (List (Option Battery)))
    (last : Option (ℕ × BState)) : IterResult :=
  match query with
  | none => .cont last none
  | some batteries =>
    match flatten_next batteries with
    | none => .cont last none
    | some battery =>
      let percentage := sampler_percentage battery.state_of_charge
      let state := battery.state
      if some (percentage, state) ≠ last then
        if receiver_closed then .panicked "Failed to send battery info"
        else .cont (some (percentage, state)) (some (percentage, state))
      else .cont last none

/-- The sample emitted by an iteration outcome, if any. -/
def iter_emitted : IterResult → Option (ℕ × BState)
  | .cont _ e => e
  | .panicked _ => none

/-- The sampler loop run over a finite schedule of query results with an
open receiver: returns the list of emitted samples and the final
`last_battery_info`. -/
def sampler_run (queries : List (Option (List (Option Battery))))
    (last : Option (ℕ × BState)) : List (ℕ × BState) × Option (ℕ × BState) :=
  match queries with
  | [] => ([], last)
  | q :: rest =>
    match sampler_iter false q last with
    | .cont last' none => sampler_run rest last'
    | .cont last' (some s) =>
      let r := sampler_run rest last'
      (s :: r.1, r.2)
    | .panicked _ => ([], last)

/-- With an open receiver, an iteration either leaves `last_battery_info`
unchanged and emits nothing, or emits a sample different from
`last_battery_info` and records it as the new `last_battery_info`. -/
lemma sampler_iter_open_cases (q : Option (List (Option Battery)))
    (last : Option (ℕ × BState)) :
    sampler_iter false q last = .cont last none ∨
    ∃ s, some s ≠ last ∧ sampler_iter false q last = .cont (some s) (some s) := by
  match q with
  | none => exact Or.inl rfl
  | some bs =>
    match hb : flatten_next bs with
    | none =>
      left
      simp [sampler_iter, hb]
    | some b =>
      by_cases hs : some (sampler_percentage b.state_of_charge, b.state) ≠ last
      · right
        exact ⟨_, hs, by simp [sampler_iter, hb, hs]⟩
      · left
        simp [sampler_iter, hb, if_neg hs]

lemma sampler_run_head (queries : List (Option (List (Option Battery)))) :
    ∀ (last : Option (ℕ × BState)) (s : ℕ × BState),
      (sampler_run queries last).1.head? = some s → some s ≠ last := by
  induction queries with
  | nil =>
    intro last s h
    simp [sampler_run] at h
  | cons q rest ih =>
    intro last s h
    rcases sampler_iter_open_cases q last with hc | ⟨s', hne, hc⟩
    · rw [sampler_run, hc] at h
      exact ih last s h
    · rw [sampler_run, hc] at h
      simp at h
      rw [← h]
      exact hne

lemma sampler_run_chain (queries : List (Option (List (Option Battery)))) :
    ∀ last : Option (ℕ × BState),
      List.Chain' (fun a b => a ≠ b) (sampler_run queries last).1 := by
  induction queries with
  | nil =>
    intro last
    simp [sampler_run]
  | cons q rest ih =>
    intro last
    rcases sampler_iter_open_cases q last with hc | ⟨s', hne, hc⟩
    · rw [sampler_run, hc]
      exact ih last
    · rw [sampler_run, hc]
      apply List.chain'_cons'.mpr
      refine ⟨?_, ih (some s')⟩
      intro y hy
      have hy' := sampler_run_head rest (some s') y hy
      intro heq
      exact hy' (by rw [heq])

/-- C6: with an open receiver, an iteration that sees a battery emits the
derived `(percentage, state)` pair iff it differs from the last recorded
pair; consequently, over any schedule of query results, no two consecutive
emitted samples are equal. -/
theorem sampler_dedup :
    (∀ (bs : List (Option Battery)) (b : Battery) (last : Option (ℕ × BState)),
      flatten_next bs = some b →
        iter_emitted (sampler_iter false (some bs) last) =
          (if some (sampler_percentage b.state_of_charge, b.state) ≠ last
           then some (sampler_percentage b.state_of_charge, b.state)
           else none)) ∧
    (∀ queries : List (Option (List (Option Battery))),
      List.Chain' (fun a b => a ≠ b) (sampler_run queries none).1) := by
  constructor
  · intro bs b last hb
    by_cases hs : some (sampler_percentage b.state_of_charge, b.state) ≠ last
    · simp [sampler_iter, hb, hs, iter_emitted]
    · simp [sampler_iter, hb, if_neg hs, iter_emitted, hs]
  · intro queries
    exact sampler_run_chain queries none

/-- Witness for C6 on a one-device query against an empty history. -/
theorem sampler_dedup_witness :
    (iter_emitted
        (sampler_iter false (some [some (Battery.mk (1/2) BState.Discharging)]) none) =
      (if some (sampler_percentage (1/2), BState.Discharging) ≠
          (none : Option (ℕ × BState))
       then some (sampler_percentage (1/2), BState.Discharging)
       else none)) ∧
    List.Chain' (fun a b => a ≠ b)
      (sampler_run [some [some (Battery.mk (1/2) BState.Discharging)]] none).1 :=
  ⟨sampler_dedup.1 [some (Battery.mk (1/2) BState.Discharging)]
      (Battery.mk (1/2) BState.Discharging) none rfl,
   sampler_dedup.2 [some [some (Battery.mk (1/2) BState.Discharging)]]⟩

/-- C5 counterexample: with the receiver closed and a fresh sample to
send, the sampler loop does not shut down cleanly: the failed
`blocking_send` hits the source's `.expect` and the thread panics with
`"Failed to send battery info"` — an error path, not a normal return. -/
theorem sampler_closed_receiver_crash :
    sampler_iter true (some [some (Battery.mk (1/2) BState.Discharging)]) none =
      IterResult.panicked "Failed to send battery info" := by
  simp [sampler_iter, flatten_next]

/-- C5 amended: when the Update Channel's receiver is closed and the
current iteration has a sample differing from the last emitted one, the
send fails and the Sampler thread terminates by panicking with
`"Failed to send battery info"` (the `.expect` on `blocking_send`), not by
a clean shutdown. -/
theorem sampler_closed_receiver_panics (bs : List (Option Battery)) (b : Battery)
    (last : Option (ℕ × BState)) (hb : flatten_next bs = some b)
    (hnew : some (sampler_percentage b.state_of_charge, b.state) ≠ last) :
    sampler_iter true (some bs) last =
      IterResult.panicked "Failed to send battery info" := by
  simp [sampler_iter, hb, hnew]

/-- Witness for the amended C5 on a charging device. -/
theorem sampler_closed_receiver_panics_witness :
    sampler_iter true (some [some (Battery.mk (3/4) BState.Charging)]) none =
      IterResult.panicked "Failed to send battery info" :=
  sampler_closed_receiver_panics _ (Battery.mk (3/4) BState.Charging) none rfl
    (by simp)

/-- C7 counterexample: at the `f32`-representable fraction
`soc = 8472494 / 2²⁴ ≈ 0.504999995` the exact product `soc · 100` is
`50.49999952…`, but the `f32` multiplication rounds it to exactly `50.5`,
so the program derives `51` while `round(soc · 100) = 50`: the claimed
equality with the exact rounding fails on an in-range input. -/
theorem sampler_percentage_f32_divergence :
    (0:ℚ) ≤ 8472494/16777216 ∧ (8472494:ℚ)/16777216 ≤ 1 ∧
    sampler_percentage (8472494/16777216) = 51 ∧
    round ((8472494:ℚ)/16777216 * 100) = 50 := by
  have hq : (8472494:ℚ)/16777216 * 100 = 105906175/2097152 := by norm_num
  have he : exp2 ((105906175:ℚ)/2097152) = 5 := by
    apply exp2_eq (by norm_num)
    · rw [show (5:ℤ) = ((5:ℕ):ℤ) by norm_num, zpow_natCast]
      norm_num
    · rw [show (5:ℤ) + 1 = ((6:ℕ):ℤ) by norm_num, zpow_natCast]
      norm_num
  have hu : (2:ℚ) ^ ((5:ℤ) - 23) = (262144:ℚ)⁻¹ := by
    rw [show (5:ℤ) - 23 = -(18:ℤ) by norm_num, zpow_neg,
      show (18:ℤ) = ((18:ℕ):ℤ) by norm_num, zpow_natCast]
    norm_num
  have hfloor : ⌊(105906175:ℚ)/8⌋ = 13238271 := by
    rw [Int.floor_eq_iff]
    constructor
    · push_cast
      norm_num
    · push_cast
      norm_num
  have hrne : rne ((105906175:ℚ)/8) = 13238272 := by
    unfold rne
    rw [hfloor]
    push_cast
    norm_num
  have hfl : fl32 ((105906175:ℚ)/2097152) = 101/2 := by
    rw [fl32, if_neg (by norm_num), he, hu]
    rw [show (105906175:ℚ)/2097152 / (262144:ℚ)⁻¹ = 105906175/8 by norm_num]
    rw [hrne]
    push_cast
    norm_num
  refine ⟨by norm_num, by norm_num, ?_, ?_⟩
  · rw [sampler_percentage, hq, hfl, round_eq]
    rw [show (101:ℚ)/2 + 1/2 = ((51:ℤ):ℚ) by push_cast; norm_num]
    rw [Int.floor_intCast]
    rfl
  · rw [hq, round_eq]
    rw [show (105906175:ℚ)/2097152 + 1/2 = 106954751/2097152 by norm_num]
    rw [Int.floor_eq_iff]
    constructor
    · push_cast
      norm_num
    · push_cast
      norm_num

/-- C7 amended: for every state-of-charge fraction in `[0,1]`, the
sampler's derived percentage is `round` of the `f32`-rounded product
`fl32(fraction · 100)`, lies in `[0,100]` (it is a `ℕ`, so nonnegative by
type), and differs from the ideal `round(fraction · 100)` by at most 1 —
the `f32` product carries at most a half-ulp (`≤ 2⁻¹⁸`) error, which can
flip the rounding only across a half-integer tie. -/
theorem sampler_percentage_spec (soc : ℚ) (h0 : 0 ≤ soc) (h1 : soc ≤ 1) :
    (sampler_percentage soc : ℤ) = round (fl32 (soc * 100)) ∧
    sampler_percentage soc ≤ 100 ∧
    round (soc * 100) - 1 ≤ (sampler_percentage soc : ℤ) ∧
    (sampler_percentage soc : ℤ) ≤ round (soc * 100) + 1 := by
  have hq0 : (0:ℚ) ≤ soc * 100 := mul_nonneg h0 (by norm_num)
  have hq100 : soc * 100 ≤ 100 := by nlinarith
  have herr : |fl32 (soc * 100) - soc * 100| ≤ 1/4 := by
    rcases eq_or_lt_of_le hq0 with h | h
    · rw [← h]
      simp [fl32]
    · have hb := fl32_err h
      have he6 : exp2 (soc * 100) ≤ 6 := by
        by_contra hcon
        push_neg at hcon
        have h7 : (2:ℚ) ^ (7:ℤ) ≤ 2 ^ exp2 (soc * 100) :=
          zpow_le_zpow_right₀ one_le_two (by omega)
        have hs := (exp2_spec h).1
        have h128 : (2:ℚ) ^ (7:ℤ) = 128 := by norm_num
        linarith
      have hle : (2:ℚ) ^ (exp2 (soc * 100) - 24) ≤ 2 ^ (-18:ℤ) :=
        zpow_le_zpow_right₀ one_le_two (by omega)
      have hval : (2:ℚ) ^ (-18:ℤ) ≤ 1/4 := by norm_num
      exact le_trans hb (le_trans hle hval)
  have habs := abs_le.mp herr
  have hfl0 : 0 ≤ fl32 (soc * 100) := fl32_nonneg hq0
  have hrnd0 : (0:ℤ) ≤ round (fl32 (soc * 100)) := by
    rw [round_eq]
    exact Int.floor_nonneg.mpr (by linarith)
  have hcast : ((sampler_percentage soc : ℕ) : ℤ) = round (fl32 (soc * 100)) := by
    simp [sampler_percentage, Int.toNat_of_nonneg hrnd0]
  refine ⟨hcast, ?_, ?_, ?_⟩
  · have hub : round (fl32 (soc * 100)) ≤ 100 := by
      rw [round_eq]
      apply Int.floor_le_iff.mpr
      push_cast
      linarith
    omega
  · have hcmp : round (soc * 100) ≤ round (fl32 (soc * 100)) + 1 := by
      rw [round_eq, round_eq]
      calc ⌊soc * 100 + 1/2⌋ ≤ ⌊fl32 (soc * 100) + 1/2 + 1⌋ :=
            Int.floor_le_floor (by linarith)
        _ = ⌊fl32 (soc * 100) + 1/2⌋ + 1 := Int.floor_add_one _
    omega
  · have hcmp : round (fl32 (soc * 100)) ≤ round (soc * 100) + 1 := by
      rw [round_eq, round_eq]
      calc ⌊fl32 (soc * 100) + 1/2⌋ ≤ ⌊soc * 100 + 1/2 + 1⌋ :=
            Int.floor_le_floor (by linarith)
        _ = ⌊soc * 100 + 1/2⌋ + 1 := Int.floor_add_one _
    omega

/-- Witness for the amended C7 at `soc = 1/2`. -/
theorem sampler_percentage_spec_witness :
    (sampler_percentage (1/2) : ℤ) = round (fl32 ((1/2 : ℚ) * 100)) ∧
    sampler_percentage (1/2) ≤ 100 ∧
    round ((1/2 : ℚ) * 100) - 1 ≤ (sampler_percentage (1/2) : ℤ) ∧
    (sampler_percentage (1/2) : ℤ) ≤ round ((1/2 : ℚ) * 100) + 1 :=
  sampler_percentage_spec (1/2) (by norm_num) (by norm_num)

/-- C8: on an iteration whose query fails (`none`) or yields no readable
device, the sampler emits nothing, leaves `last_battery_info` unchanged
and does not panic — whether or not the receiver is still there; in
particular three consecutive empty polls emit nothing and change
nothing. -/
theorem sampler_skip_on_failure :
    (∀ (closed : Bool) (last : Option (ℕ × BState)),
      sampler_iter closed none last = IterResult.cont last none) ∧
    (∀ (closed : Bool) (bs : List (Option Battery)) (last : Option (ℕ × BState)),
      flatten_next bs = none →
        sampler_iter closed (some bs) last = IterResult.cont last none) ∧
    (∀ last : Option (ℕ × BState),
      sampler_run [none, none, none] last = ([], last) ∧
      sampler_run [some [], some [], some []] last = ([], last)) := by
  refine ⟨fun closed last => rfl,
         fun closed bs last hb => by simp [sampler_iter, hb],
         fun last => ⟨rfl, rfl⟩⟩

/-- Witness for C8 on a failed query, an empty device list, and three
consecutive failed polls. -/
theorem sampler_skip_on_failure_witness :
    sampler_iter true none none = IterResult.cont none none ∧
    sampler_iter false (some []) none = IterResult.cont none none ∧
    sampler_run [none, none, none] none = ([], none) :=
  ⟨sampler_skip_on_failure.1 true none,
   sampler_skip_on_failure.2.1 false [] none rfl,
   (sampler_skip_on_failure.2.2 none).1⟩

/-! ### Tray updater (`spawn_tray_updater`) -/

/-- The charging flag the Tray Updater passes to `generate_icon`:
`state == State::Charging`. -/
def tray_charging (state : BState) : Bool := state == BState.Charging

/-- C10: the `"^_^"` string can be produced only when the reported state
is exactly `Charging` (with percentage above 97), because the updater
derives the charging flag as `state == Charging`; for every other state —
including `Full`, at any percentage — the icon text is the bare decimal
percentage string. -/
theorem smiley_only_when_charging :
    (∀ (p : ℕ) (s : BState),
      build_text p (tray_charging s) = "^_^" → s = BState.Charging ∧ 97 < p) ∧
    (∀ (p : ℕ) (s : BState), s ≠ BState.Charging →
      build_text p (tray_charging s) = Nat.repr p) := by
  constructor
  · intro p s h
    cases s with
    | Charging =>
      refine ⟨rfl, ?_⟩
      by_contra hp
      have h' : build_text p true = "^_^" := h
      rw [build_text_charging_low (by omega)] at h'
      exact repr_star_ne_smiley p h'
    | Discharging => exact absurd (show Nat.repr p = "^_^" from h) (repr_ne_smiley p)
    | Full => exact absurd (show Nat.repr p = "^_^" from h) (repr_ne_smiley p)
    | Unknown => exact absurd (show Nat.repr p = "^_^" from h) (repr_ne_smiley p)
  · intro p s hs
    cases s with
    | Charging => exact absurd rfl hs
    | Discharging => rfl
    | Full => rfl
    | Unknown => rfl

/-- Witness for C10: `Charging` at 99 yields the smiley; `Full` at 100
yields the digit string `"100"`. -/
theorem smiley_only_when_charging_witness :
    (BState.Charging = BState.Charging ∧ 97 < 99) ∧
    build_text 100 (tray_charging BState.Full) = Nat.repr 100 :=
  ⟨smiley_only_when_charging.1 99 BState.Charging rfl,
   smiley_only_when_charging.2 100 BState.Full (by decide)⟩

/-- Witness for C1 at `p = 99`, `c = true`. -/
theorem build_text_spec_witness :
    (true = true → 97 < 99 → build_text 99 true = "^_^") ∧
    (true = true → 99 ≤ 97 → build_text 99 true = Nat.repr 99 ++ "*") ∧
    (true = false → build_text 99 true = Nat.repr 99) ∧
    (∀ n : ℕ, Nat.repr n ≠ "^_^") ∧
    ((true = true ∧ 97 < 99) ∨ (true = true ∧ 99 ≤ 97) ∨ true = false) ∧
    ¬((true = true ∧ 97 < 99) ∧ (true = true ∧ 99 ≤ 97)) ∧
    ¬((true = true ∧ 97 < 99) ∧ true = false) ∧
    ¬((true = true ∧ 99 ≤ 97) ∧ true = false) :=
  build_text_spec 99 true (by decide)
